import Mathlib

/-!
# Verification development for `tp::ThreadPool` (thread_pool.h)

The pool is embedded as a state machine.  A state holds the members of the
class (`workers_`, `tasks_`, `queue_mutex_`, `stop_`,
`working_threads_counter_`), the shared states of the futures handed out by
`enqueue`, and history lists used only to state properties.  Every block of
code that C++ executes atomically with respect to the other threads (a
critical section of `queue_mutex_`, one atomic operation on the counter, one
call of a task) is one step of one thread; interleavings are lists of such
steps.  Condition variables carry no state of their own: a thread blocked in
`wait(lock, pred)` may re-evaluate its predicate at any time, which covers
notified and spurious wakes alike.
-/

namespace tp

/-! ## Data model -/

/-- Message of a raised failure (`std::runtime_error::what()` and the like). -/
abbrev Err := String

/-- Outcome of invoking a bound zero-argument callable: it returns a value or
raises a failure. -/
inductive Outcome where
  | value (v : Int)
  | failure (e : Err)
  deriving DecidableEq, Repr

/-- How a call returned to its caller: normally, or by a propagating exception. -/
inductive Call where
  | returned
  | threw (e : Err)
  deriving DecidableEq, Repr

/-- Element of `tasks_`, a `std::function<void()>`.  Line 136 builds the closure
`[task]() { (*task)(); }` around a shared `std::packaged_task`: `id` names the
shared state of the future obtained at line 128 and `callable` is the bound
callable of line 125, given by its outcome.  Line 153 would store the bound
callable itself. -/
inductive Task where
  | packaged (id : Nat) (callable : Outcome)
  | bound (callable : Outcome)
  deriving DecidableEq, Repr

/-- Index of the shared state a task fulfils, if it has one. -/
def Task.id (t : Task) : Option Nat :=
  match t with
  | Task.packaged id _ => some id
  | Task.bound _ => none

/-- Program points of the worker lambda (lines 91 to 112). -/
inductive Worker where
  /-- Lines 92 to 94: about to lock, or blocked in `condition_consumers_.wait`;
  the mutex is not held. -/
  | waiting
  /-- After line 99: the head task has been moved out and popped, the mutex is
  still held, `lock.unlock()` of line 100 is next. -/
  | holding (t : Task)
  /-- After line 100: mutex released, `working_threads_counter_++` is next. -/
  | dequeued (t : Task)
  /-- After line 102: counter incremented, `task()` of line 103 not yet returned. -/
  | running (t : Task)
  /-- After line 103: `task()` returned, `working_threads_counter_--` is next. -/
  | finished (t : Task)
  /-- After line 104: counter decremented, `lock.lock()` of line 106 is next. -/
  | relock
  /-- After line 106: mutex held, lines 107 to 111 are next. -/
  | notifying
  /-- Line 96: the thread function returned. -/
  | terminated
  /-- An exception left `task()` and so the thread function (`std::terminate`). -/
  | crashed
  /-- The call `tasks_.front()` was made on an empty queue (undefined behaviour). -/
  | undefined_front
  deriving DecidableEq, Repr

/-- Calls made on the two condition variables, logged in program order. -/
inductive Signal where
  | consumers_notify_one
  | consumers_notify_all
  | producers_notify_one
  | producers_notify_all
  deriving DecidableEq, Repr

/-- State of a `tp::ThreadPool` object.  The first five fields are the data
members of lines 58 to 69 (the condition variables are stateless here).
`futures` holds the shared state of every future created by `enqueue`
(`none`: not ready).  `submitted`, `removed`, `completed` and `signals` are
history variables: tasks accepted by `enqueue`, tasks popped by workers, tasks
whose call has returned, and condition-variable calls, each in order of
occurrence.  The counter is a `std::atomic<int>`; its value never leaves the
range from 0 to the number of worker threads, so it is an unbounded integer
here, and the `size_t` quantities are natural numbers. -/
structure ThreadPool where
  workers_ : List Worker
  tasks_ : List Task
  queue_mutex_ : Option Nat
  stop_ : Bool
  working_threads_counter_ : Int
  futures : List (Option Outcome)
  submitted : List Task
  removed : List Task
  completed : List Task
  signals : List Signal
  deriving DecidableEq, Repr

/-! ## Construction (lines 73 to 116) -/

/-- Line 15: `enum { AUTODETECT = 0 }`. -/
def AUTODETECT : Nat := 0

/-- Lines 78 to 85: number of workers created for a requested `threads_count`
when `std::thread::hardware_concurrency()` reports `hardware_concurrency`. -/
def workers_count (threads_count hardware_concurrency : Nat) : Nat :=
  let workers_count :=
    if threads_count == AUTODETECT then hardware_concurrency else threads_count
  if workers_count == 0 then 1 else workers_count

/-- Constructor `ThreadPool::ThreadPool(size_t threads_count)`: `stop_(false)`,
counter stored as 0, default-constructed queue and mutex, and `workers_count`
threads each at the top of its loop. -/
def ThreadPool.construct (threads_count hardware_concurrency : Nat) : ThreadPool :=
  { workers_ := List.replicate (workers_count threads_count hardware_concurrency) Worker.waiting
    tasks_ := []
    queue_mutex_ := none
    stop_ := false
    working_threads_counter_ := 0
    futures := []
    submitted := []
    removed := []
    completed := []
    signals := [] }

/-! ## Submission (lines 118 to 156) -/

/-- What `enqueue` gives back to its caller: a future (named by the index of
its shared state) or a synchronously raised exception. -/
inductive Submit where
  | future (id : Nat)
  | raised (e : Err)
  deriving DecidableEq, Repr

/-- Method `ThreadPool::enqueue`, lines 118 to 140, as one critical section of
`queue_mutex_` followed by the `notify_one` of line 138.  The shared state
created at lines 124 to 128 is destroyed again by unwinding when line 133
throws, so it enters the pool state only on the accepting path. -/
def ThreadPool.enqueue (s : ThreadPool) (callable : Outcome) : ThreadPool × Submit :=
  if s.stop_ then
    (s, Submit.raised "enqueue on stopped ThreadPool")
  else
    let task : Task := Task.packaged s.futures.length callable
    ({ s with
        tasks_ := s.tasks_ ++ [task]
        futures := s.futures ++ [none]
        submitted := s.submitted ++ [task]
        signals := s.signals ++ [Signal.consumers_notify_one] },
     Submit.future s.futures.length)

/-- Call of `std::future::get` on the future with shared state `id`: `none`
while the state is not ready (the call blocks), otherwise the stored value or
the stored failure, which `get` re-raises. -/
def ThreadPool.future_get (s : ThreadPool) (id : Nat) : Option Outcome :=
  s.futures.getD id none

/-- Call of a queued task, line 103.  The closure of line 136 calls the
packaged task, which runs the bound callable and stores its value or its
exception in the shared state; no exception propagates out of
`std::packaged_task::operator()`.  A bare bound callable returns or throws as
the callable does. -/
def Task.call (t : Task) (futures : List (Option Outcome)) : List (Option Outcome) × Call :=
  match t with
  | Task.packaged id callable => (futures.set id (some callable), Call.returned)
  | Task.bound (Outcome.value _) => (futures, Call.returned)
  | Task.bound (Outcome.failure e) => (futures, Call.threw e)

/-- Data members declared in `class ThreadPool`, lines 58 to 69. -/
inductive Member where
  | workers_
  | tasks_
  | queue_mutex_
  | condition_producers_
  | condition_consumers_
  | stop_
  | working_threads_counter_
  deriving DecidableEq, Repr

/-- Identifier under which a data member is declared. -/
def Member.name (m : Member) : String :=
  match m with
  | Member.workers_ => "workers_"
  | Member.tasks_ => "tasks_"
  | Member.queue_mutex_ => "queue_mutex_"
  | Member.condition_producers_ => "condition_producers_"
  | Member.condition_consumers_ => "condition_consumers_"
  | Member.stop_ => "stop_"
  | Member.working_threads_counter_ => "working_threads_counter_"

/-- Unqualified lookup of an identifier inside a member function of
`ThreadPool`: the data member declared under that name, if any.  Neither
namespace `tp` nor the global scope declares a variable, so nothing else can
be found. -/
def ThreadPool.lookup (name : String) : Option Member :=
  [Member.workers_, Member.tasks_, Member.queue_mutex_, Member.condition_producers_,
   Member.condition_consumers_, Member.stop_, Member.working_threads_counter_].find?
    (fun m => m.name == name)

/-- Result of `enqueueAndDetach`: accepted with a new pool state, refused with
an exception, or not a program at all because the named identifier does not
denote a usable member. -/
inductive Detach where
  | accepted (s : ThreadPool)
  | raised (e : Err)
  | ill_formed (name : String)
  deriving DecidableEq, Repr

/-- Method `ThreadPool::enqueueAndDetach`, lines 142 to 156, with the
identifiers exactly as written there: `queue_mutex_` (line 146), `stop`
(line 149), `tasks` (line 153) and `condition` (line 155). -/
def ThreadPool.enqueueAndDetach (s : ThreadPool) (callable : Outcome) : Detach :=
  match ThreadPool.lookup "queue_mutex_" with
  | some Member.queue_mutex_ =>
    match ThreadPool.lookup "stop" with
    | some Member.stop_ =>
      if s.stop_ then Detach.raised "enqueue on stopped ThreadPool"
      else
        match ThreadPool.lookup "tasks" with
        | some Member.tasks_ =>
          match ThreadPool.lookup "condition" with
          | some Member.condition_consumers_ =>
            Detach.accepted { s with
              tasks_ := s.tasks_ ++ [Task.bound callable]
              submitted := s.submitted ++ [Task.bound callable]
              signals := s.signals ++ [Signal.consumers_notify_one] }
          | some Member.condition_producers_ =>
            Detach.accepted { s with
              tasks_ := s.tasks_ ++ [Task.bound callable]
              submitted := s.submitted ++ [Task.bound callable]
              signals := s.signals ++ [Signal.producers_notify_one] }
          | _ => Detach.ill_formed "condition"
        | _ => Detach.ill_formed "tasks"
    | _ => Detach.ill_formed "stop"
  | _ => Detach.ill_formed "queue_mutex_"

/-! ## Worker loop (lines 91 to 112) -/

/-- Predicate of the wait at line 94: `stop_ || !tasks_.empty()`. -/
def ThreadPool.wait_pred (s : ThreadPool) : Bool :=
  s.stop_ || !s.tasks_.isEmpty

/-- Exit test of line 95: `stop_ && tasks_.empty()`. -/
def ThreadPool.exit_test (s : ThreadPool) : Bool :=
  s.stop_ && s.tasks_.isEmpty

/-- Predicate of lines 107 and 108 and of lines 183 and 184:
`tasks_.empty() && working_threads_counter_.load() == 0`. -/
def ThreadPool.drained (s : ThreadPool) : Bool :=
  s.tasks_.isEmpty && s.working_threads_counter_ == 0

/-- Lines 98 and 99: `front()` then `pop()`; `none` stands for the undefined
behaviour of `front()` on an empty queue. -/
def front_pop (tasks : List Task) : Option (Task × List Task) :=
  match tasks with
  | [] => none
  | t :: rest => some (t, rest)

/-- One atomic step of worker `i`; `none` when the worker cannot move (it is
blocked on the mutex, has left the loop, or does not exist). -/
def ThreadPool.workerStep (s : ThreadPool) (i : Nat) : Option ThreadPool :=
  match s.workers_[i]? with
  | none => none
  | some Worker.waiting =>
    if s.queue_mutex_ ≠ none then none
    else if !s.wait_pred then some s
    else if s.exit_test then
      some { s with workers_ := s.workers_.set i Worker.terminated }
    else
      match front_pop s.tasks_ with
      | none => some { s with workers_ := s.workers_.set i Worker.undefined_front }
      | some (t, rest) =>
        some { s with
          tasks_ := rest
          removed := s.removed ++ [t]
          queue_mutex_ := some i
          workers_ := s.workers_.set i (Worker.holding t) }
  | some (Worker.holding t) =>
    some { s with
      queue_mutex_ := none
      workers_ := s.workers_.set i (Worker.dequeued t) }
  | some (Worker.dequeued t) =>
    some { s with
      working_threads_counter_ := s.working_threads_counter_ + 1
      workers_ := s.workers_.set i (Worker.running t) }
  | some (Worker.running t) =>
    match t.call s.futures with
    | (futures, Call.returned) =>
      some { s with
        futures := futures
        completed := s.completed ++ [t]
        workers_ := s.workers_.set i (Worker.finished t) }
    | (futures, Call.threw _) =>
      some { s with
        futures := futures
        workers_ := s.workers_.set i Worker.crashed }
  | some (Worker.finished _) =>
    some { s with
      working_threads_counter_ := s.working_threads_counter_ - 1
      workers_ := s.workers_.set i Worker.relock }
  | some Worker.relock =>
    if s.queue_mutex_ ≠ none then none
    else
      some { s with
        queue_mutex_ := some i
        workers_ := s.workers_.set i Worker.notifying }
  | some Worker.notifying =>
    some { s with
      queue_mutex_ := none
      signals := s.signals ++ (if s.drained then [Signal.producers_notify_all] else [])
      workers_ := s.workers_.set i Worker.waiting }
  | some Worker.terminated => none
  | some Worker.crashed => none
  | some Worker.undefined_front => none

/-! ## Shutdown, inspection and drain wait (lines 158 to 186) -/

/-- Lines 160 to 165 of the destructor: set `stop_` under the mutex, then wake
both condition variables. -/
def ThreadPool.shutdown (s : ThreadPool) : ThreadPool :=
  { s with
    stop_ := true
    signals := s.signals ++ [Signal.consumers_notify_all, Signal.producers_notify_all] }

/-- Lines 166 to 170 of the destructor return once every worker thread has
returned from its thread function. -/
def ThreadPool.joined (s : ThreadPool) : Bool :=
  s.workers_.all (fun w => w == Worker.terminated)

/-- Method `ThreadPool::queueSize`, lines 173 to 177: the state after the call
and the returned `tasks_.size()`. -/
def ThreadPool.queueSize (s : ThreadPool) : ThreadPool × Nat :=
  (s, s.tasks_.length)

/-- Method `ThreadPool::waitUntilEmpty`, lines 179 to 186: the caller holds the
mutex (so no worker does) and returns when the predicate holds; `none` when the
call stays blocked in the observed state. -/
def ThreadPool.waitUntilEmpty (s : ThreadPool) : Option ThreadPool :=
  if s.queue_mutex_ = none ∧ s.drained = true then some s else none

/-! ## Interleavings -/

/-- One step of one thread of the program. -/
inductive Action where
  /-- A caller runs `enqueue` with the given callable. -/
  | enqueue (callable : Outcome)
  /-- Worker `i` takes its next step. -/
  | worker (i : Nat)
  /-- The owner runs lines 160 to 165 of the destructor. -/
  | shutdown
  deriving DecidableEq, Repr

/-- Effect of one action; `none` when the acting thread is blocked. -/
def ThreadPool.step (s : ThreadPool) (a : Action) : Option ThreadPool :=
  match a with
  | Action.enqueue callable =>
    if s.queue_mutex_ = none then some (s.enqueue callable).1 else none
  | Action.worker i => s.workerStep i
  | Action.shutdown =>
    if s.queue_mutex_ = none then some s.shutdown else none

/-- Effect of a schedule, a list of actions executed left to right. -/
def ThreadPool.run (s : ThreadPool) (schedule : List Action) : Option ThreadPool :=
  match schedule with
  | [] => some s
  | a :: rest =>
    match s.step a with
    | none => none
    | some s1 => ThreadPool.run s1 rest

/-- States the program can be in after construction with `threads_count` on a
host reporting `hardware_concurrency`. -/
def Reachable (threads_count hardware_concurrency : Nat) (s : ThreadPool) : Prop :=
  ∃ schedule, (ThreadPool.construct threads_count hardware_concurrency).run schedule = some s

/-- Whether an action is a submission. -/
def Action.isEnqueue (a : Action) : Bool :=
  match a with
  | Action.enqueue _ => true
  | _ => false

/-- Task a worker has taken from the queue and whose call has not returned. -/
def Worker.inflight (w : Worker) : List Task :=
  match w with
  | Worker.holding t => [t]
  | Worker.dequeued t => [t]
  | Worker.running t => [t]
  | _ => []

/-- Worker between the increment of line 102 and the decrement of line 104:
the window around the call of line 103 in which the counter includes it. -/
def Worker.executing (w : Worker) : Bool :=
  match w with
  | Worker.running _ => true
  | Worker.finished _ => true
  | _ => false

/-! ## Concrete schedules -/

/-- Three submissions to a pool of two workers; worker 1 pops first and gets as
far as line 103, worker 0 pops second and stops before line 100. -/
def schedule_two_workers : List Action :=
  [Action.enqueue (Outcome.value 10), Action.enqueue (Outcome.failure "boom"),
   Action.enqueue (Outcome.value 30), Action.worker 1, Action.worker 1, Action.worker 1,
   Action.worker 0]

/-- State reached by `schedule_two_workers`. -/
def state_two_workers : ThreadPool :=
  { workers_ := [Worker.holding (Task.packaged 1 (Outcome.failure "boom")),
                 Worker.running (Task.packaged 0 (Outcome.value 10))]
    tasks_ := [Task.packaged 2 (Outcome.value 30)]
    queue_mutex_ := some 0
    stop_ := false
    working_threads_counter_ := 1
    futures := [none, none, none]
    submitted := [Task.packaged 0 (Outcome.value 10), Task.packaged 1 (Outcome.failure "boom"),
                  Task.packaged 2 (Outcome.value 30)]
    removed := [Task.packaged 0 (Outcome.value 10), Task.packaged 1 (Outcome.failure "boom")]
    completed := []
    signals := [Signal.consumers_notify_one, Signal.consumers_notify_one,
                Signal.consumers_notify_one] }

/-- Four workers, two submissions; workers 2 and 0 each pop a task, worker 2
finishes the call of its task, worker 0 has incremented the counter. -/
def schedule_four_workers : List Action :=
  [Action.enqueue (Outcome.failure "bad"), Action.enqueue (Outcome.value 2),
   Action.worker 2, Action.worker 2, Action.worker 0, Action.worker 0,
   Action.worker 2, Action.worker 2, Action.worker 0]

/-- State reached by `schedule_four_workers`. -/
def state_four_workers : ThreadPool :=
  { workers_ := [Worker.running (Task.packaged 1 (Outcome.value 2)), Worker.waiting,
                 Worker.finished (Task.packaged 0 (Outcome.failure "bad")), Worker.waiting]
    tasks_ := []
    queue_mutex_ := none
    stop_ := false
    working_threads_counter_ := 2
    futures := [some (Outcome.failure "bad"), none]
    submitted := [Task.packaged 0 (Outcome.failure "bad"), Task.packaged 1 (Outcome.value 2)]
    removed := [Task.packaged 0 (Outcome.failure "bad"), Task.packaged 1 (Outcome.value 2)]
    completed := [Task.packaged 0 (Outcome.failure "bad")]
    signals := [Signal.consumers_notify_one, Signal.consumers_notify_one] }

/-- One worker; a task is submitted, the destructor sets `stop_` while the task
is still queued, then the worker runs its loop until it returns. -/
def schedule_shutdown : List Action :=
  [Action.enqueue (Outcome.value 5), Action.shutdown,
   Action.worker 0, Action.worker 0, Action.worker 0, Action.worker 0,
   Action.worker 0, Action.worker 0, Action.worker 0, Action.worker 0]

/-- State reached by `schedule_shutdown`. -/
def state_shutdown : ThreadPool :=
  { workers_ := [Worker.terminated]
    tasks_ := []
    queue_mutex_ := none
    stop_ := true
    working_threads_counter_ := 0
    futures := [some (Outcome.value 5)]
    submitted := [Task.packaged 0 (Outcome.value 5)]
    removed := [Task.packaged 0 (Outcome.value 5)]
    completed := [Task.packaged 0 (Outcome.value 5)]
    signals := [Signal.consumers_notify_one, Signal.consumers_notify_all,
                Signal.producers_notify_all, Signal.producers_notify_all] }

/-- One worker and one submission; the worker pops the task, releases the
mutex (line 100) and is preempted before line 102. -/
def schedule_race : List Action :=
  [Action.enqueue (Outcome.value 7), Action.worker 0, Action.worker 0]

/-- State reached by `schedule_race`. -/
def state_race : ThreadPool :=
  { workers_ := [Worker.dequeued (Task.packaged 0 (Outcome.value 7))]
    tasks_ := []
    queue_mutex_ := none
    stop_ := false
    working_threads_counter_ := 0
    futures := [none]
    submitted := [Task.packaged 0 (Outcome.value 7)]
    removed := [Task.packaged 0 (Outcome.value 7)]
    completed := []
    signals := [Signal.consumers_notify_one] }

/-- One worker and one submission of a callable that raises; the worker is at
line 103. -/
def schedule_failing : List Action :=
  [Action.enqueue (Outcome.failure "boom"), Action.worker 0, Action.worker 0, Action.worker 0]

/-- State reached by `schedule_failing`. -/
def state_failing : ThreadPool :=
  { workers_ := [Worker.running (Task.packaged 0 (Outcome.failure "boom"))]
    tasks_ := []
    queue_mutex_ := none
    stop_ := false
    working_threads_counter_ := 1
    futures := [none]
    submitted := [Task.packaged 0 (Outcome.failure "boom")]
    removed := [Task.packaged 0 (Outcome.failure "boom")]
    completed := []
    signals := [Signal.consumers_notify_one] }

/-- One full iteration of worker `i`, lines 92 to 111. -/
def iteration (i : Nat) : List Action :=
  List.replicate 7 (Action.worker i)

/-- One worker; a first task is submitted and drained, then a second one. -/
def schedule_two_batches : List Action :=
  [Action.enqueue (Outcome.value 1)] ++ iteration 0 ++
  [Action.enqueue (Outcome.value 2)] ++ iteration 0

/-- State reached by `schedule_two_batches`. -/
def state_two_batches : ThreadPool :=
  { workers_ := [Worker.waiting]
    tasks_ := []
    queue_mutex_ := none
    stop_ := false
    working_threads_counter_ := 0
    futures := [some (Outcome.value 1), some (Outcome.value 2)]
    submitted := [Task.packaged 0 (Outcome.value 1), Task.packaged 1 (Outcome.value 2)]
    removed := [Task.packaged 0 (Outcome.value 1), Task.packaged 1 (Outcome.value 2)]
    completed := [Task.packaged 0 (Outcome.value 1), Task.packaged 1 (Outcome.value 2)]
    signals := [Signal.consumers_notify_one, Signal.producers_notify_all,
                Signal.consumers_notify_one, Signal.producers_notify_all] }

/-- Pool of one worker after `enqueue` of one task and lines 160 to 165 of
the destructor. -/
def state_stopping : ThreadPool :=
  { workers_ := [Worker.waiting]
    tasks_ := [Task.packaged 0 (Outcome.value 5)]
    queue_mutex_ := none
    stop_ := true
    working_threads_counter_ := 0
    futures := [none]
    submitted := [Task.packaged 0 (Outcome.value 5)]
    removed := []
    completed := []
    signals := [Signal.consumers_notify_one, Signal.consumers_notify_all,
                Signal.producers_notify_all] }

/-- Two submissions attempted on the stopped pool, around the pop of the
queued task by the worker. -/
def schedule_after_stop : List Action :=
  [Action.enqueue (Outcome.value 6), Action.worker 0, Action.worker 0,
   Action.enqueue (Outcome.value 8)]

/-- State reached from `state_stopping` by `schedule_after_stop`. -/
def state_after_stop : ThreadPool :=
  { workers_ := [Worker.dequeued (Task.packaged 0 (Outcome.value 5))]
    tasks_ := []
    queue_mutex_ := none
    stop_ := true
    working_threads_counter_ := 0
    futures := [none]
    submitted := [Task.packaged 0 (Outcome.value 5)]
    removed := [Task.packaged 0 (Outcome.value 5)]
    completed := []
    signals := [Signal.consumers_notify_one, Signal.consumers_notify_all,
                Signal.producers_notify_all] }

/-- State reached by the first half of `schedule_two_batches`. -/
def state_one_batch : ThreadPool :=
  { workers_ := [Worker.waiting]
    tasks_ := []
    queue_mutex_ := none
    stop_ := false
    working_threads_counter_ := 0
    futures := [some (Outcome.value 1)]
    submitted := [Task.packaged 0 (Outcome.value 1)]
    removed := [Task.packaged 0 (Outcome.value 1)]
    completed := [Task.packaged 0 (Outcome.value 1)]
    signals := [Signal.consumers_notify_one, Signal.producers_notify_all] }

/-- Invariant of the reachable states. -/
structure Inv (s : ThreadPool) : Prop where
  /-- Popped tasks followed by queued tasks are the accepted tasks, in order. -/
  fifo : s.removed ++ s.tasks_ = s.submitted
  /-- The accepted tasks are closures of line 136 whose shared states are, in
  order, all the shared states created so far. -/
  ids : s.submitted.map Task.id = (List.range s.futures.length).map some
  /-- The counter counts the workers between lines 102 and 104. -/
  counter : s.working_threads_counter_ = ((s.workers_.countP Worker.executing : Nat) : Int)
  /-- Every popped task has returned or is in the hands of a worker. -/
  flight : List.Perm s.removed (s.completed ++ s.workers_.flatMap Worker.inflight)
  /-- A worker has left its loop only if the pool is stopped and the queue empty. -/
  term : Worker.terminated ∈ s.workers_ → s.stop_ = true ∧ s.tasks_ = []
  /-- The shared state of a task whose call returned holds its outcome. -/
  ready : ∀ id c, Task.packaged id c ∈ s.completed → s.futures[id]? = some (some c)
  /-- No worker has left its loop abnormally. -/
  sound : Worker.crashed ∉ s.workers_ ∧ Worker.undefined_front ∉ s.workers_

end tp

namespace tp

/-! ## Auxiliary facts about lists -/

theorem getElem?_split {α : Type} (l : List α) (i : Nat) (w : α) (h : l[i]? = some w) :
    ∃ l1 l2, l = l1 ++ w :: l2 ∧ ∀ x, l.set i x = l1 ++ x :: l2 := by
  induction l generalizing i with
  | nil => simp at h
  | cons a l ih =>
    cases i with
    | zero =>
      simp at h
      subst h
      exact ⟨[], l, by simp, by simp⟩
    | succ j =>
      simp at h
      obtain ⟨l1, l2, h1, h2⟩ := ih j h
      refine ⟨a :: l1, l2, by simp [h1], ?_⟩
      intro x
      simp [h2 x]

theorem getElem?_mid {α : Type} (l1 l2 : List α) (i : Nat) (w x : α)
    (h : (l1 ++ w :: l2)[i]? = some w) (hs : ∀ y, (l1 ++ w :: l2).set i y = l1 ++ y :: l2) :
    (l1 ++ x :: l2)[i]? = some x := by
  have h1 := hs x
  have h2 : ((l1 ++ w :: l2).set i x)[i]? = some x := by
    have hlt : i < (l1 ++ w :: l2).length := by
      rcases Nat.lt_or_ge i (l1 ++ w :: l2).length with hlt | hge
      · exact hlt
      · rw [List.getElem?_eq_none hge] at h
        cases h
    have hlt2 : i < l1.length + (l2.length + 1) := by simpa using hlt
    simp [List.getElem?_set, hlt2]
  rw [h1] at h2
  exact h2

/-! ## The invariant holds in every reachable state -/

theorem construct_inv (n h : Nat) : Inv (ThreadPool.construct n h) := by
  refine ⟨by simp [ThreadPool.construct], by simp [ThreadPool.construct], ?_, by simp [ThreadPool.construct, Worker.inflight], ?_, ?_, ?_⟩
  · simp [ThreadPool.construct, List.countP_replicate, Worker.executing]
  · intro hm
    simp [ThreadPool.construct, List.mem_replicate] at hm
  · intro id c hm
    simp [ThreadPool.construct] at hm
  · simp [ThreadPool.construct, List.mem_replicate]

theorem enqueue_inv (s : ThreadPool) (c : Outcome) (hinv : Inv s) : Inv (s.enqueue c).1 := by
  obtain ⟨hfifo, hids, hcnt, hfl, hterm, hready, hsound⟩ := hinv
  unfold ThreadPool.enqueue
  by_cases hstop : s.stop_ = true
  · simp only [hstop, if_true]
    exact ⟨hfifo, hids, hcnt, hfl, hterm, hready, hsound⟩
  · simp only [hstop]
    refine ⟨?_, ?_, hcnt, hfl, ?_, ?_, hsound⟩
    · simp [← hfifo]
    · simp [hids, List.range_succ, Task.id]
    · intro hm
      exact absurd (hterm hm).1 hstop
    · intro id c1 hm
      have h1 := hready id c1 hm
      have hlt : id < s.futures.length := by
        rcases Nat.lt_or_ge id s.futures.length with hlt | hge
        · exact hlt
        · rw [List.getElem?_eq_none hge] at h1
          cases h1
      show (s.futures ++ [none])[id]? = some (some c1)
      rw [List.getElem?_append_left hlt]
      exact h1

theorem submitted_nodup (s : ThreadPool) (hinv : Inv s) : (s.submitted.map Task.id).Nodup := by
  rw [hinv.ids]
  exact (List.nodup_range _).map (fun a b hab => by simpa using hab)

theorem submitted_packaged (s : ThreadPool) (hinv : Inv s) (t : Task) (ht : t ∈ s.submitted) :
    ∃ id c, t = Task.packaged id c ∧ id < s.futures.length := by
  have h1 : Task.id t ∈ s.submitted.map Task.id := List.mem_map_of_mem _ ht
  rw [hinv.ids] at h1
  simp only [List.mem_map, List.mem_range] at h1
  obtain ⟨k, hk, hkt⟩ := h1
  cases t with
  | packaged id c =>
    simp [Task.id] at hkt
    exact ⟨id, c, rfl, by omega⟩
  | bound c => simp [Task.id] at hkt

theorem inflight_submitted (s : ThreadPool) (hinv : Inv s) (w : Worker) (hw : w ∈ s.workers_)
    (t : Task) (ht : t ∈ w.inflight) : t ∈ s.submitted := by
  have h1 : t ∈ s.workers_.flatMap Worker.inflight := by
    simp only [List.mem_flatMap]
    exact ⟨w, hw, ht⟩
  have h2 : t ∈ s.removed := hinv.flight.mem_iff.mpr (List.mem_append_right _ h1)
  rw [← hinv.fifo]
  exact List.mem_append_left _ h2

theorem completed_submitted (s : ThreadPool) (hinv : Inv s) (t : Task) (ht : t ∈ s.completed) :
    t ∈ s.submitted := by
  have h2 : t ∈ s.removed := hinv.flight.mem_iff.mpr (List.mem_append_left _ ht)
  rw [← hinv.fifo]
  exact List.mem_append_left _ h2

theorem workerStep_inv (s s1 : ThreadPool) (i : Nat) (hinv : Inv s)
    (h : s.workerStep i = some s1) : Inv s1 := by
  unfold ThreadPool.workerStep at h
  cases hw : s.workers_[i]? with
  | none => simp [hw] at h
  | some w =>
    obtain ⟨l1, l2, hl, hset⟩ := getElem?_split s.workers_ i w hw
    have hmem : w ∈ s.workers_ := by rw [hl]; simp
    have hinv0 := hinv
    obtain ⟨hfifo, hids, hcnt, hfl, hterm, hready, hsound⟩ := hinv
    rw [hl] at hcnt hfl hterm hsound
    simp only [hw] at h
    cases w with
    | waiting =>
      dsimp only at h
      split at h
      · simp at h
      · split at h
        · simp only [Option.some.injEq] at h
          subst h
          exact hinv0
        · split at h
          · rename_i hexit
            simp only [Option.some.injEq] at h
            subst h
            simp only [ThreadPool.exit_test, Bool.and_eq_true, List.isEmpty_iff] at hexit
            refine ⟨hfifo, hids, ?_, ?_, ?_, hready, ?_⟩
            · simpa [hset, Worker.executing, List.countP_append, List.countP_cons] using hcnt
            · simpa [hset, Worker.inflight] using hfl
            · intro _
              exact hexit
            · simpa [hset] using hsound
          · rename_i hpred hexit
            cases htasks : s.tasks_ with
            | nil =>
              simp [ThreadPool.wait_pred, ThreadPool.exit_test, htasks] at hpred hexit
              simp [hpred] at hexit
            | cons t rest =>
              simp only [htasks, front_pop, Option.some.injEq] at h
              subst h
              refine ⟨?_, hids, ?_, ?_, ?_, hready, ?_⟩
              · simp [← hfifo, htasks]
              · simpa [hset, Worker.executing, List.countP_append, List.countP_cons] using hcnt
              · rw [List.perm_iff_count] at hfl ⊢
                intro a
                have hfa := hfl a
                simp [hset, Worker.inflight, List.count_append, List.count_cons] at hfa ⊢
                omega
              · intro hm
                simp [hset] at hm
                have h2 := hterm (by simpa using hm)
                simp [htasks] at h2
              · simpa [hset] using hsound
    | holding t =>
      simp only [Option.some.injEq] at h
      subst h
      refine ⟨hfifo, hids, ?_, ?_, ?_, hready, ?_⟩
      · simpa [hset, Worker.executing, List.countP_append, List.countP_cons] using hcnt
      · simpa [hset, Worker.inflight] using hfl
      · simpa [hset] using hterm
      · simpa [hset] using hsound
    | dequeued t =>
      simp only [Option.some.injEq] at h
      subst h
      refine ⟨hfifo, hids, ?_, ?_, ?_, hready, ?_⟩
      · simp [hset, Worker.executing, List.countP_append, List.countP_cons] at hcnt ⊢
        omega
      · simpa [hset, Worker.inflight] using hfl
      · simpa [hset] using hterm
      · simpa [hset] using hsound
    | running t =>
      have hsub : t ∈ s.submitted := inflight_submitted s hinv0 _ hmem t (by simp [Worker.inflight])
      obtain ⟨id, c, ht, hid⟩ := submitted_packaged s hinv0 t hsub
      subst ht
      simp only [Task.call, Option.some.injEq] at h
      subst h
      refine ⟨hfifo, ?_, ?_, ?_, ?_, ?_, ?_⟩
      · simpa using hids
      · simpa [hset, Worker.executing, List.countP_append, List.countP_cons] using hcnt
      · rw [List.perm_iff_count] at hfl ⊢
        intro a
        have hfa := hfl a
        simp [hset, Worker.inflight, List.count_append, List.count_cons] at hfa ⊢
        omega
      · simpa [hset] using hterm
      · intro id1 c1 hm
        simp only [List.mem_append, List.mem_singleton] at hm
        by_cases hid1 : id1 = id
        · subst hid1
          have hc : c1 = c := by
            rcases hm with hm | hm
            · have hs1 := completed_submitted s hinv0 _ hm
              have hinj := List.inj_on_of_nodup_map (submitted_nodup s hinv0) hs1 hsub (by simp [Task.id])
              simpa using hinj
            · simpa using hm
          subst hc
          simp [List.getElem?_set, hid]
        · rcases hm with hm | hm
          · have h1 := hready id1 c1 hm
            rw [List.getElem?_set_ne (fun hh => hid1 hh.symm)]
            exact h1
          · simp at hm
            exact absurd hm.1 hid1
      · simpa [hset] using hsound
    | finished t =>
      simp only [Option.some.injEq] at h
      subst h
      refine ⟨hfifo, hids, ?_, ?_, ?_, hready, ?_⟩
      · simp [hset, Worker.executing, List.countP_append, List.countP_cons] at hcnt ⊢
        omega
      · simpa [hset, Worker.inflight] using hfl
      · simpa [hset] using hterm
      · simpa [hset] using hsound
    | relock =>
      dsimp only at h
      split at h
      · simp at h
      · simp only [Option.some.injEq] at h
        subst h
        refine ⟨hfifo, hids, ?_, ?_, ?_, hready, ?_⟩
        · simpa [hset, Worker.executing, List.countP_append, List.countP_cons] using hcnt
        · simpa [hset, Worker.inflight] using hfl
        · simpa [hset] using hterm
        · simpa [hset] using hsound
    | notifying =>
      simp only [Option.some.injEq] at h
      subst h
      refine ⟨hfifo, hids, ?_, ?_, ?_, hready, ?_⟩
      · simpa [hset, Worker.executing, List.countP_append, List.countP_cons] using hcnt
      · simpa [hset, Worker.inflight] using hfl
      · simpa [hset] using hterm
      · simpa [hset] using hsound
    | terminated => simp at h
    | crashed => simp at h
    | undefined_front => simp at h

theorem shutdown_inv (s : ThreadPool) (hinv : Inv s) : Inv s.shutdown := by
  obtain ⟨hfifo, hids, hcnt, hfl, hterm, hready, hsound⟩ := hinv
  exact ⟨hfifo, hids, hcnt, hfl, fun hm => ⟨rfl, (hterm hm).2⟩, hready, hsound⟩

theorem step_inv (s s1 : ThreadPool) (a : Action) (hinv : Inv s)
    (h : s.step a = some s1) : Inv s1 := by
  cases a with
  | enqueue c =>
    simp only [ThreadPool.step] at h
    split at h
    · simp only [Option.some.injEq] at h
      subst h
      exact enqueue_inv s c hinv
    · simp at h
  | worker i => exact workerStep_inv s s1 i hinv h
  | shutdown =>
    simp only [ThreadPool.step] at h
    split at h
    · simp only [Option.some.injEq] at h
      subst h
      exact shutdown_inv s hinv
    · simp at h

theorem run_inv (schedule : List Action) (s s1 : ThreadPool) (hinv : Inv s)
    (h : s.run schedule = some s1) : Inv s1 := by
  induction schedule generalizing s with
  | nil =>
    simp only [ThreadPool.run, Option.some.injEq] at h
    subst h
    exact hinv
  | cons a rest ih =>
    simp only [ThreadPool.run] at h
    cases hstep : s.step a with
    | none => simp [hstep] at h
    | some s2 =>
      simp only [hstep] at h
      exact ih s2 (step_inv s s2 a hinv hstep) h

theorem reachable_inv (n h : Nat) (s : ThreadPool) (hr : Reachable n h s) : Inv s := by
  obtain ⟨schedule, hrun⟩ := hr
  exact run_inv schedule _ s (construct_inv n h) hrun

theorem getElem?_set_same {α : Type} (l : List α) (i : Nat) (w x : α) (h : l[i]? = some w) :
    (l.set i x)[i]? = some x := by
  obtain ⟨l1, l2, hl, hset⟩ := getElem?_split l i w h
  rw [hset x]
  rw [hl] at h hset
  exact getElem?_mid l1 l2 i w x h hset

theorem mem_of_getElem?_some {α : Type} (l : List α) (i : Nat) (w : α) (h : l[i]? = some w) :
    w ∈ l := by
  obtain ⟨l1, l2, hl, _⟩ := getElem?_split l i w h
  rw [hl]
  simp

/-! ## The task queue is first in, first out -/

/-- Claim C2: in every reachable state, for every worker count, the tasks popped
by workers so far (in pop order) followed by the tasks still in the queue are
exactly the accepted tasks in submission order, and that list has no repeated
task; so tasks are popped in submission order, none is lost and none is popped
twice. -/
theorem fifo_no_loss_no_duplicate (threads_count hardware_concurrency : Nat) (s : ThreadPool)
    (hr : Reachable threads_count hardware_concurrency s) :
    s.removed ++ s.tasks_ = s.submitted ∧ s.submitted.Nodup ∧ (s.removed ++ s.tasks_).Nodup := by
  have hinv := reachable_inv _ _ s hr
  have hnd : s.submitted.Nodup := List.Nodup.of_map _ (submitted_nodup s hinv)
  refine ⟨hinv.fifo, hnd, ?_⟩
  rw [hinv.fifo]
  exact hnd

/-- Claim C2 at the state reached by `schedule_two_workers`. -/
theorem fifo_no_loss_no_duplicate_witness :
    Reachable 2 0 state_two_workers ∧
    (state_two_workers.removed ++ state_two_workers.tasks_ = state_two_workers.submitted ∧
      state_two_workers.submitted.Nodup ∧
      (state_two_workers.removed ++ state_two_workers.tasks_).Nodup) :=
  ⟨⟨schedule_two_workers, rfl⟩,
   fifo_no_loss_no_duplicate 2 0 state_two_workers ⟨schedule_two_workers, rfl⟩⟩

/-! ## The counter of active workers -/

/-- Claim C5: in every reachable state the counter is not negative and equals
the number of workers between the increment of line 102 and the decrement of
line 104; a worker about to execute line 102 adds one and is then at line 103,
a worker at line 103 returns from the call of its task, whatever the callable
did, with the counter untouched, and a worker about to execute line 104
subtracts one. -/
theorem counter_counts_executing (threads_count hardware_concurrency : Nat) (s : ThreadPool)
    (hr : Reachable threads_count hardware_concurrency s) :
    0 ≤ s.working_threads_counter_ ∧
    s.working_threads_counter_ = ((s.workers_.countP Worker.executing : Nat) : Int) ∧
    (∀ i t, s.workers_[i]? = some (Worker.dequeued t) →
      ∃ s1, s.workerStep i = some s1 ∧
        s1.working_threads_counter_ = s.working_threads_counter_ + 1 ∧
        s1.workers_[i]? = some (Worker.running t)) ∧
    (∀ i t, s.workers_[i]? = some (Worker.running t) →
      ∃ s1, s.workerStep i = some s1 ∧
        s1.working_threads_counter_ = s.working_threads_counter_ ∧
        s1.workers_[i]? = some (Worker.finished t)) ∧
    (∀ i t, s.workers_[i]? = some (Worker.finished t) →
      ∃ s1, s.workerStep i = some s1 ∧
        s1.working_threads_counter_ = s.working_threads_counter_ - 1 ∧
        s1.workers_[i]? = some Worker.relock) := by
  have hinv := reachable_inv _ _ s hr
  refine ⟨?_, hinv.counter, ?_, ?_, ?_⟩
  · rw [hinv.counter]
    exact Int.natCast_nonneg _
  · intro i t hw
    simp only [ThreadPool.workerStep, hw]
    exact ⟨_, rfl, rfl, getElem?_set_same _ _ _ _ hw⟩
  · intro i t hw
    have hmem : Worker.running t ∈ s.workers_ := mem_of_getElem?_some _ _ _ hw
    have hsub := inflight_submitted s hinv _ hmem t (by simp [Worker.inflight])
    obtain ⟨id, c, ht, _⟩ := submitted_packaged s hinv t hsub
    subst ht
    simp only [ThreadPool.workerStep, hw, Task.call]
    exact ⟨_, rfl, rfl, getElem?_set_same _ _ _ _ hw⟩
  · intro i t hw
    simp only [ThreadPool.workerStep, hw]
    exact ⟨_, rfl, rfl, getElem?_set_same _ _ _ _ hw⟩

/-- Claim C5 at the state reached by `schedule_four_workers`: two workers are
between lines 102 and 104 and the counter is 2. -/
theorem counter_counts_executing_witness :
    Reachable 4 0 state_four_workers ∧
    0 ≤ state_four_workers.working_threads_counter_ ∧
    state_four_workers.working_threads_counter_ =
      ((state_four_workers.workers_.countP Worker.executing : Nat) : Int) :=
  ⟨⟨schedule_four_workers, rfl⟩,
   (counter_counts_executing 4 0 state_four_workers ⟨schedule_four_workers, rfl⟩).1,
   (counter_counts_executing 4 0 state_four_workers ⟨schedule_four_workers, rfl⟩).2.1⟩

/-! ## Shutdown -/

theorem workerStep_length (s s1 : ThreadPool) (i : Nat) (h : s.workerStep i = some s1) :
    s1.workers_.length = s.workers_.length := by
  unfold ThreadPool.workerStep at h
  cases hw : s.workers_[i]? with
  | none => simp [hw] at h
  | some w =>
    simp only [hw] at h
    cases w <;> dsimp only at h
    case waiting =>
      split at h
      · simp at h
      · split at h
        · simp only [Option.some.injEq] at h
          subst h
          rfl
        · split at h
          · simp only [Option.some.injEq] at h
            subst h
            simp
          · split at h <;>
            · simp only [Option.some.injEq] at h
              subst h
              simp
    case running t =>
      split at h <;>
      · simp only [Option.some.injEq] at h
        subst h
        simp
    case relock =>
      split at h
      · simp at h
      · simp only [Option.some.injEq] at h
        subst h
        simp
    all_goals first
      | (simp only [Option.some.injEq] at h
         subst h
         simp)
      | simp at h

theorem run_length (schedule : List Action) (s s1 : ThreadPool)
    (h : s.run schedule = some s1) : s1.workers_.length = s.workers_.length := by
  induction schedule generalizing s with
  | nil =>
    simp only [ThreadPool.run, Option.some.injEq] at h
    subst h
    rfl
  | cons a rest ih =>
    simp only [ThreadPool.run] at h
    cases hstep : s.step a with
    | none => simp [hstep] at h
    | some s2 =>
      simp only [hstep] at h
      rw [ih s2 h]
      cases a with
      | enqueue c =>
        simp only [ThreadPool.step] at hstep
        split at hstep
        · simp only [Option.some.injEq] at hstep
          subst hstep
          simp only [ThreadPool.enqueue]
          split <;> rfl
        · simp at hstep
      | worker i => exact workerStep_length s s2 i hstep
      | shutdown =>
        simp only [ThreadPool.step] at hstep
        split at hstep
        · simp only [Option.some.injEq] at hstep
          subst hstep
          rfl
        · simp at hstep

theorem workers_count_pos (n h : Nat) : 1 ≤ workers_count n h := by
  simp only [workers_count, AUTODETECT, beq_iff_eq]
  split_ifs <;> omega

theorem reachable_length (n h : Nat) (s : ThreadPool) (hr : Reachable n h s) :
    s.workers_.length = workers_count n h := by
  obtain ⟨schedule, hrun⟩ := hr
  rw [run_length schedule _ s hrun]
  simp [ThreadPool.construct]

theorem workerStep_terminated (s s1 : ThreadPool) (i : Nat) (h : s.workerStep i = some s1)
    (ht : s1.workers_[i]? = some Worker.terminated) :
    s.workers_[i]? = some Worker.waiting ∧ s.queue_mutex_ = none ∧
      s.stop_ = true ∧ s.tasks_ = [] := by
  unfold ThreadPool.workerStep at h
  cases hw : s.workers_[i]? with
  | none => simp [hw] at h
  | some w =>
    simp only [hw] at h
    have hset : ∀ x, (s.workers_.set i x)[i]? = some x :=
      fun x => getElem?_set_same s.workers_ i w x hw
    cases w <;> dsimp only at h
    case waiting =>
      split at h
      · simp at h
      · rename_i hmutex
        split at h
        · simp only [Option.some.injEq] at h
          subst h
          rw [hw] at ht
          cases ht
        · split at h
          · rename_i hexit
            simp only [ThreadPool.exit_test, Bool.and_eq_true, List.isEmpty_iff] at hexit
            exact ⟨rfl, by simpa using hmutex, hexit.1, hexit.2⟩
          · split at h <;>
            · simp only [Option.some.injEq] at h
              subst h
              simp only [hset] at ht
              cases ht
    case running t =>
      split at h <;>
      · simp only [Option.some.injEq] at h
        subst h
        simp only [hset] at ht
        cases ht
    case relock =>
      split at h
      · simp at h
      · simp only [Option.some.injEq] at h
        subst h
        simp only [hset] at ht
        cases ht
    all_goals first
      | (simp only [Option.some.injEq] at h
         subst h
         simp only [hset] at ht
         cases ht)
      | simp at h

theorem joined_all_terminated (s : ThreadPool) (hj : s.joined = true) :
    ∀ w ∈ s.workers_, w = Worker.terminated := by
  intro w hw
  simp only [ThreadPool.joined, List.all_eq_true] at hj
  simpa using hj w hw

/-- Claim C4: a step takes a worker to the terminated state only from the wait
of lines 92 to 95, entered with the mutex free, with `stop_` set and `tasks_`
empty; so in every reachable state in which some worker has terminated the
pool is stopped and the queue is empty; and in every reachable state in which
all workers have terminated (the joins of the destructor return) the queue is
empty, every accepted task has been popped, the tasks whose call returned are
exactly the accepted tasks, each once, and every future is ready with the
outcome of its callable. -/
theorem terminated_only_when_stopped_and_drained (threads_count hardware_concurrency : Nat)
    (s : ThreadPool) (hr : Reachable threads_count hardware_concurrency s) :
    (∀ i s1, s.workerStep i = some s1 → s1.workers_[i]? = some Worker.terminated →
      s.workers_[i]? = some Worker.waiting ∧ s.queue_mutex_ = none ∧
        s.stop_ = true ∧ s.tasks_ = []) ∧
    (Worker.terminated ∈ s.workers_ → s.stop_ = true ∧ s.tasks_ = []) ∧
    (s.joined = true →
      s.stop_ = true ∧ s.tasks_ = [] ∧ s.removed = s.submitted ∧
        s.completed.Perm s.submitted ∧
        ∀ t ∈ s.submitted, ∃ id c, t = Task.packaged id c ∧ s.future_get id = some c) := by
  have hinv := reachable_inv _ _ s hr
  refine ⟨fun i s1 h ht => workerStep_terminated s s1 i h ht, hinv.term, ?_⟩
  intro hj
  have hall := joined_all_terminated s hj
  have hlen := reachable_length _ _ s hr
  have hpos := workers_count_pos threads_count hardware_concurrency
  have hmem : Worker.terminated ∈ s.workers_ := by
    cases hws : s.workers_ with
    | nil => simp [hws] at hlen; omega
    | cons w rest =>
      have hw := hall w (by simp [hws])
      subst hw
      simp
  obtain ⟨hstop, htasks⟩ := hinv.term hmem
  have hrem : s.removed = s.submitted := by
    have hf := hinv.fifo
    rw [htasks, List.append_nil] at hf
    exact hf
  have hnil : s.workers_.flatMap Worker.inflight = [] := by
    rw [List.eq_nil_iff_forall_not_mem]
    intro t ht
    simp only [List.mem_flatMap] at ht
    obtain ⟨w, hw, htw⟩ := ht
    rw [hall w hw] at htw
    simp [Worker.inflight] at htw
  have hperm : s.completed.Perm s.submitted := by
    have hf := hinv.flight
    rw [hnil, List.append_nil, hrem] at hf
    exact hf.symm
  refine ⟨hstop, htasks, hrem, hperm, ?_⟩
  intro t ht
  obtain ⟨id, c, htc, _⟩ := submitted_packaged s hinv t ht
  subst htc
  refine ⟨id, c, rfl, ?_⟩
  have hc : Task.packaged id c ∈ s.completed := hperm.mem_iff.mpr ht
  have hr := hinv.ready id c hc
  simp [ThreadPool.future_get, List.getD_eq_getElem?_getD, hr]

/-- Claim C4 at the state reached by `schedule_shutdown`: the task was still
queued when `stop_` was set, and the only worker terminated after running it. -/
theorem terminated_only_when_stopped_and_drained_witness :
    Reachable 1 0 state_shutdown ∧ state_shutdown.joined = true ∧
    (state_shutdown.stop_ = true ∧ state_shutdown.tasks_ = [] ∧
      state_shutdown.removed = state_shutdown.submitted ∧
      state_shutdown.completed.Perm state_shutdown.submitted ∧
      ∀ t ∈ state_shutdown.submitted,
        ∃ id c, t = Task.packaged id c ∧ state_shutdown.future_get id = some c) :=
  ⟨⟨schedule_shutdown, rfl⟩, rfl,
   (terminated_only_when_stopped_and_drained 1 0 state_shutdown
      ⟨schedule_shutdown, rfl⟩).2.2 rfl⟩

/-! ## Drain wait -/

/-- Claim C1, evaluated on `schedule_race`: the state is reachable, the mutex is
free and the predicate of `waitUntilEmpty` holds, so a call of `waitUntilEmpty`
returns, while the only worker holds the popped task, whose call has not
started: the counter is still 0, no task has completed and the future is not
ready. -/
theorem waitUntilEmpty_returns_before_popped_task_runs :
    Reachable 1 0 state_race ∧
    (ThreadPool.construct 1 0).run schedule_race = some state_race ∧
    state_race.waitUntilEmpty = some state_race ∧
    state_race.workers_ = [Worker.dequeued (Task.packaged 0 (Outcome.value 7))] ∧
    state_race.workers_.flatMap Worker.inflight = [Task.packaged 0 (Outcome.value 7)] ∧
    state_race.working_threads_counter_ = 0 ∧
    state_race.completed = [] ∧
    state_race.future_get 0 = none :=
  ⟨⟨schedule_race, rfl⟩, rfl, rfl, rfl, rfl, rfl, rfl, rfl⟩

/-! ## Submit and forget -/

/-- Claim C6, evaluated on a fresh pool of one worker: `enqueue` accepts the
callable and appends one task to `tasks_`, whereas `enqueueAndDetach` is not a
program for any pool state and callable, because the identifiers `stop`,
`tasks` and `condition` it uses name no member of the class. -/
theorem enqueueAndDetach_names_no_member :
    (∀ (s : ThreadPool) (callable : Outcome),
      s.enqueueAndDetach callable = Detach.ill_formed "stop") ∧
    ThreadPool.lookup "stop" = none ∧ ThreadPool.lookup "tasks" = none ∧
    ThreadPool.lookup "condition" = none ∧
    ((ThreadPool.construct 1 0).enqueue (Outcome.value 1)).1.tasks_ =
      [Task.packaged 0 (Outcome.value 1)] ∧
    ((ThreadPool.construct 1 0).enqueue (Outcome.value 1)).2 = Submit.future 0 := by
  refine ⟨?_, by decide, by decide, by decide, rfl, rfl⟩
  intro s callable
  have h1 : ThreadPool.lookup "queue_mutex_" = some Member.queue_mutex_ := by decide
  have h2 : ThreadPool.lookup "stop" = none := by decide
  simp only [ThreadPool.enqueueAndDetach, h1, h2]

/-! ## Construction -/

/-- Claim C7: the constructor creates `threads_count` workers when that is
positive, as many workers as the hardware reports when `threads_count` is
`AUTODETECT` and the report is positive, and one worker when the report is 0;
there is always at least one worker, all start at the top of the loop, and the
pool starts with `stop_` false, the mutex free, an empty queue and a counter
of 0. -/
theorem construct_workers (threads_count hardware_concurrency : Nat) :
    (0 < threads_count →
      (ThreadPool.construct threads_count hardware_concurrency).workers_.length
        = threads_count) ∧
    (threads_count = AUTODETECT → 0 < hardware_concurrency →
      (ThreadPool.construct threads_count hardware_concurrency).workers_.length
        = hardware_concurrency) ∧
    (threads_count = AUTODETECT → hardware_concurrency = 0 →
      (ThreadPool.construct threads_count hardware_concurrency).workers_.length = 1) ∧
    1 ≤ (ThreadPool.construct threads_count hardware_concurrency).workers_.length ∧
    (∀ w ∈ (ThreadPool.construct threads_count hardware_concurrency).workers_,
      w = Worker.waiting) ∧
    (ThreadPool.construct threads_count hardware_concurrency).stop_ = false ∧
    (ThreadPool.construct threads_count hardware_concurrency).queue_mutex_ = none ∧
    (ThreadPool.construct threads_count hardware_concurrency).tasks_ = [] ∧
    (ThreadPool.construct threads_count hardware_concurrency).working_threads_counter_ = 0 := by
  have hlen : (ThreadPool.construct threads_count hardware_concurrency).workers_.length
      = workers_count threads_count hardware_concurrency := by
    simp [ThreadPool.construct]
  have hpos := workers_count_pos threads_count hardware_concurrency
  refine ⟨?_, ?_, ?_, by omega, ?_, rfl, rfl, rfl, rfl⟩
  · intro hn
    rw [hlen]
    simp only [workers_count, AUTODETECT, beq_iff_eq]
    split_ifs <;> omega
  · intro hn hh
    rw [hlen]
    simp only [workers_count, AUTODETECT, beq_iff_eq] at hn ⊢
    split_ifs
    all_goals omega
  · intro hn hh
    rw [hlen]
    simp only [workers_count, AUTODETECT, beq_iff_eq] at hn ⊢
    split_ifs
    all_goals omega
  · intro w hw
    simp only [ThreadPool.construct, List.mem_replicate] at hw
    exact hw.2

/-- Claim C7 on the worker counts of the tests (4 requested; autodetection on a
host reporting 8; autodetection on a host reporting 0). -/
theorem construct_workers_witness :
    (ThreadPool.construct 4 8).workers_.length = 4 ∧
    (ThreadPool.construct AUTODETECT 8).workers_.length = 8 ∧
    (ThreadPool.construct AUTODETECT 0).workers_.length = 1 :=
  ⟨(construct_workers 4 8).1 (by decide),
   (construct_workers AUTODETECT 8).2.1 rfl (by decide),
   (construct_workers AUTODETECT 0).2.2.1 rfl rfl⟩

/-! ## Submission after shutdown -/

theorem workerStep_frame (s s1 : ThreadPool) (i : Nat) (h : s.workerStep i = some s1) :
    s1.stop_ = s.stop_ ∧ s1.submitted = s.submitted ∧
      ∃ popped, s.tasks_ = popped ++ s1.tasks_ := by
  unfold ThreadPool.workerStep at h
  cases hw : s.workers_[i]? with
  | none => simp [hw] at h
  | some w =>
    simp only [hw] at h
    cases w <;> dsimp only at h
    case waiting =>
      split at h
      · simp at h
      · split at h
        · simp only [Option.some.injEq] at h
          subst h
          exact ⟨rfl, rfl, [], rfl⟩
        · split at h
          · simp only [Option.some.injEq] at h
            subst h
            exact ⟨rfl, rfl, [], rfl⟩
          · cases htasks : s.tasks_ with
            | nil =>
              simp only [htasks, front_pop, Option.some.injEq] at h
              subst h
              exact ⟨rfl, rfl, [], by simp [htasks]⟩
            | cons t rest =>
              simp only [htasks, front_pop, Option.some.injEq] at h
              subst h
              exact ⟨rfl, rfl, [t], by simp⟩
    case running t =>
      split at h <;>
      · simp only [Option.some.injEq] at h
        subst h
        exact ⟨rfl, rfl, [], rfl⟩
    case relock =>
      split at h
      · simp at h
      · simp only [Option.some.injEq] at h
        subst h
        exact ⟨rfl, rfl, [], rfl⟩
    all_goals first
      | (simp only [Option.some.injEq] at h
         subst h
         exact ⟨rfl, rfl, [], rfl⟩)
      | simp at h

theorem enqueue_stopped (s : ThreadPool) (callable : Outcome) (hstop : s.stop_ = true) :
    s.enqueue callable = (s, Submit.raised "enqueue on stopped ThreadPool") := by
  simp [ThreadPool.enqueue, hstop]

theorem step_stopped (s s1 : ThreadPool) (a : Action) (hstop : s.stop_ = true)
    (h : s.step a = some s1) :
    s1.stop_ = true ∧ s1.submitted = s.submitted ∧
      ∃ popped, s.tasks_ = popped ++ s1.tasks_ := by
  cases a with
  | enqueue c =>
    simp only [ThreadPool.step] at h
    split at h
    · simp only [Option.some.injEq] at h
      subst h
      rw [enqueue_stopped s c hstop]
      exact ⟨hstop, rfl, [], rfl⟩
    · simp at h
  | worker i =>
    obtain ⟨h1, h2, h3⟩ := workerStep_frame s s1 i h
    exact ⟨by rw [h1, hstop], h2, h3⟩
  | shutdown =>
    simp only [ThreadPool.step] at h
    split at h
    · simp only [Option.some.injEq] at h
      subst h
      exact ⟨rfl, rfl, [], rfl⟩
    · simp at h

theorem run_stopped (schedule : List Action) (s s1 : ThreadPool) (hstop : s.stop_ = true)
    (h : s.run schedule = some s1) :
    s1.stop_ = true ∧ s1.submitted = s.submitted ∧
      ∃ popped, s.tasks_ = popped ++ s1.tasks_ := by
  induction schedule generalizing s with
  | nil =>
    simp only [ThreadPool.run, Option.some.injEq] at h
    subst h
    exact ⟨hstop, rfl, [], rfl⟩
  | cons a rest ih =>
    simp only [ThreadPool.run] at h
    cases hstep : s.step a with
    | none => simp [hstep] at h
    | some s2 =>
      simp only [hstep] at h
      obtain ⟨h1, h2, p1, h3⟩ := step_stopped s s2 a hstop hstep
      obtain ⟨h4, h5, p2, h6⟩ := ih s2 h1 h
      exact ⟨h4, by rw [h5, h2], p1 ++ p2, by rw [h3, h6, List.append_assoc]⟩

/-- Claim C3: on every pool state whose stop flag is set, `enqueue` raises
"enqueue on stopped ThreadPool" to its caller and returns the state as it was;
the destructor sets the flag, no step of any thread clears it, and so after
any further steps every submission is still refused that way, the list of
accepted tasks is the one at the time the flag was seen set, and the queue has
only lost tasks from its front. -/
theorem enqueue_on_stopped_raises (s : ThreadPool) (hstop : s.stop_ = true)
    (schedule : List Action) (s1 : ThreadPool) (hrun : s.run schedule = some s1)
    (callable : Outcome) :
    s.enqueue callable = (s, Submit.raised "enqueue on stopped ThreadPool") ∧
    s1.stop_ = true ∧
    s1.enqueue callable = (s1, Submit.raised "enqueue on stopped ThreadPool") ∧
    s1.submitted = s.submitted ∧
    (∃ popped, s.tasks_ = popped ++ s1.tasks_) ∧
    (∀ s0 : ThreadPool, s0.shutdown.stop_ = true) := by
  obtain ⟨h1, h2, h3⟩ := run_stopped schedule s s1 hstop hrun
  exact ⟨enqueue_stopped s callable hstop, h1, enqueue_stopped s1 callable h1, h2, h3,
    fun _ => rfl⟩

/-- Claim C3 on a pool shut down with one task queued: submissions attempted
before and after the worker pops that task are all refused. -/
theorem enqueue_on_stopped_raises_witness :
    state_stopping.stop_ = true ∧
    state_stopping.run schedule_after_stop = some state_after_stop ∧
    state_stopping.enqueue (Outcome.value 9)
      = (state_stopping, Submit.raised "enqueue on stopped ThreadPool") ∧
    state_after_stop.stop_ = true ∧
    state_after_stop.enqueue (Outcome.value 9)
      = (state_after_stop, Submit.raised "enqueue on stopped ThreadPool") ∧
    state_after_stop.submitted = state_stopping.submitted :=
  ⟨rfl, rfl,
   (enqueue_on_stopped_raises state_stopping rfl schedule_after_stop state_after_stop rfl
      (Outcome.value 9)).1,
   (enqueue_on_stopped_raises state_stopping rfl schedule_after_stop state_after_stop rfl
      (Outcome.value 9)).2.1,
   (enqueue_on_stopped_raises state_stopping rfl schedule_after_stop state_after_stop rfl
      (Outcome.value 9)).2.2.1,
   (enqueue_on_stopped_raises state_stopping rfl schedule_after_stop state_after_stop rfl
      (Outcome.value 9)).2.2.2.1⟩

/-! ## Queue depth after a drain -/

theorem step_frame_tasks (s s1 : ThreadPool) (a : Action) (ha : a.isEnqueue = false)
    (h : s.step a = some s1) : ∃ popped, s.tasks_ = popped ++ s1.tasks_ := by
  cases a with
  | enqueue c => simp [Action.isEnqueue] at ha
  | worker i => exact (workerStep_frame s s1 i h).2.2
  | shutdown =>
    simp only [ThreadPool.step] at h
    split at h
    · simp only [Option.some.injEq] at h
      subst h
      exact ⟨[], rfl⟩
    · simp at h

theorem run_keeps_empty (schedule : List Action) (s s1 : ThreadPool)
    (hno : ∀ a ∈ schedule, a.isEnqueue = false) (hempty : s.tasks_ = [])
    (h : s.run schedule = some s1) : s1.tasks_ = [] := by
  induction schedule generalizing s with
  | nil =>
    simp only [ThreadPool.run, Option.some.injEq] at h
    subst h
    exact hempty
  | cons a rest ih =>
    simp only [ThreadPool.run] at h
    cases hstep : s.step a with
    | none => simp [hstep] at h
    | some s2 =>
      simp only [hstep] at h
      obtain ⟨popped, hp⟩ := step_frame_tasks s s2 a (hno a (by simp)) hstep
      rw [hempty] at hp
      have h2 : s2.tasks_ = [] := by
        have hp2 := hp.symm
        simp only [List.append_eq_nil] at hp2
        exact hp2.2
      exact ih s2 (fun b hb => hno b (by simp [hb])) h2 h

/-- Claim C8: `queueSize` returns the length of `tasks_` and leaves the pool
state as it is; once a call of `waitUntilEmpty` has returned, on any pool state
(a fresh pool after its first batch as well as a pool already drained before
and given a second batch), `queueSize` returns 0 there and after any further
steps of the workers or of the destructor, as long as no `enqueue` intervenes. -/
theorem queueSize_zero_after_waitUntilEmpty (s s1 : ThreadPool)
    (hwait : s.waitUntilEmpty = some s1) (schedule : List Action)
    (hno : ∀ a ∈ schedule, a.isEnqueue = false) (s2 : ThreadPool)
    (hrun : s1.run schedule = some s2) :
    s1 = s ∧ s1.queueSize = (s1, 0) ∧ s2.queueSize = (s2, 0) ∧
    (∀ p : ThreadPool, p.queueSize = (p, p.tasks_.length)) := by
  simp only [ThreadPool.waitUntilEmpty] at hwait
  split at hwait
  · rename_i hcond
    simp only [Option.some.injEq] at hwait
    subst hwait
    have hempty : s.tasks_ = [] := by
      have hd := hcond.2
      simp only [ThreadPool.drained, Bool.and_eq_true, List.isEmpty_iff] at hd
      exact hd.1
    have h2 := run_keeps_empty schedule s s2 hno hempty hrun
    refine ⟨rfl, ?_, ?_, fun _ => rfl⟩
    · simp [ThreadPool.queueSize, hempty]
    · simp [ThreadPool.queueSize, h2]
  · simp at hwait

/-- Claim C8 on the schedule of the test: a first batch is drained and the
queue size is 0, then a second batch is drained and the queue size is 0 again,
also after a further wake of the worker. -/
theorem queueSize_zero_after_waitUntilEmpty_witness :
    (ThreadPool.construct 1 0).run ([Action.enqueue (Outcome.value 1)] ++ iteration 0)
      = some state_one_batch ∧
    state_one_batch.waitUntilEmpty = some state_one_batch ∧
    state_one_batch.queueSize = (state_one_batch, 0) ∧
    state_one_batch.run ([Action.enqueue (Outcome.value 2)] ++ iteration 0)
      = some state_two_batches ∧
    state_two_batches.waitUntilEmpty = some state_two_batches ∧
    state_two_batches.run [Action.worker 0] = some state_two_batches ∧
    state_two_batches.queueSize = (state_two_batches, 0) :=
  ⟨rfl, rfl,
   (queueSize_zero_after_waitUntilEmpty state_one_batch state_one_batch rfl []
      (by simp) state_one_batch rfl).2.1,
   rfl, rfl, rfl,
   (queueSize_zero_after_waitUntilEmpty state_two_batches state_two_batches rfl
      [Action.worker 0] (by simp [Action.isEnqueue]) state_two_batches rfl).2.2.1⟩

/-! ## The dequeue step -/

/-- Claim C10: whenever the predicate of the wait holds and the exit test
fails, `tasks_` is not empty and `front()` and `pop()` have a head to act on,
so a waiting worker that gets the mutex pops that head; and no step of any
worker, from any pool state (stopped or not, predicate true or false), ends
with `front()` called on an empty queue. -/
theorem dequeue_never_on_empty_queue (s : ThreadPool) :
    (s.wait_pred = true → s.exit_test = false →
      s.tasks_ ≠ [] ∧
      ∃ t rest, s.tasks_ = t :: rest ∧ front_pop s.tasks_ = some (t, rest) ∧
        ∀ i, s.workers_[i]? = some Worker.waiting → s.queue_mutex_ = none →
          s.workerStep i = some { s with
            tasks_ := rest
            removed := s.removed ++ [t]
            queue_mutex_ := some i
            workers_ := s.workers_.set i (Worker.holding t) }) ∧
    (∀ i s1, s.workerStep i = some s1 → s1.workers_[i]? ≠ some Worker.undefined_front) := by
  constructor
  · intro hpred hexit
    cases htasks : s.tasks_ with
    | nil =>
      simp [ThreadPool.wait_pred, ThreadPool.exit_test, htasks] at hpred hexit
      simp [hpred] at hexit
    | cons t rest =>
      refine ⟨by simp, t, rest, rfl, rfl, ?_⟩
      intro i hw hm
      simp [ThreadPool.workerStep, hw, hm, hpred, hexit, htasks, front_pop]
  · intro i s1 h hu
    unfold ThreadPool.workerStep at h
    cases hw : s.workers_[i]? with
    | none => simp [hw] at h
    | some w =>
      simp only [hw] at h
      have hset : ∀ x, (s.workers_.set i x)[i]? = some x :=
        fun x => getElem?_set_same s.workers_ i w x hw
      cases w <;> dsimp only at h
      case waiting =>
        split at h
        · simp at h
        · split at h
          · simp only [Option.some.injEq] at h
            subst h
            rw [hw] at hu
            cases hu
          · split at h
            · simp only [Option.some.injEq] at h
              subst h
              simp only [hset] at hu
              cases hu
            · rename_i hpred hexit
              cases htasks : s.tasks_ with
              | nil =>
                simp [ThreadPool.wait_pred, ThreadPool.exit_test, htasks] at hpred hexit
                simp [hpred] at hexit
              | cons t rest =>
                simp only [htasks, front_pop, Option.some.injEq] at h
                subst h
                simp only [hset] at hu
                cases hu
      case running t =>
        split at h <;>
        · simp only [Option.some.injEq] at h
          subst h
          simp only [hset] at hu
          cases hu
      case relock =>
        split at h
        · simp at h
        · simp only [Option.some.injEq] at h
          subst h
          simp only [hset] at hu
          cases hu
      all_goals first
        | (simp only [Option.some.injEq] at h
           subst h
           simp only [hset] at hu
           cases hu)
        | simp at h

/-- Claim C10 at the state reached by `schedule_two_workers`, where one task
is queued and the pool is not stopped. -/
theorem dequeue_never_on_empty_queue_witness :
    state_two_workers.wait_pred = true ∧ state_two_workers.exit_test = false ∧
    state_two_workers.tasks_ ≠ [] :=
  ⟨rfl, rfl, ((dequeue_never_on_empty_queue state_two_workers).1 rfl rfl).1⟩

/-! ## Completed tasks stay completed -/

theorem workerStep_completed (s s1 : ThreadPool) (i : Nat) (h : s.workerStep i = some s1) :
    ∃ done, s1.completed = s.completed ++ done := by
  unfold ThreadPool.workerStep at h
  cases hw : s.workers_[i]? with
  | none => simp [hw] at h
  | some w =>
    simp only [hw] at h
    cases w <;> dsimp only at h
    case waiting =>
      split at h
      · simp at h
      · split at h
        · simp only [Option.some.injEq] at h
          subst h
          exact ⟨[], by simp⟩
        · split at h
          · simp only [Option.some.injEq] at h
            subst h
            exact ⟨[], by simp⟩
          · split at h <;>
            · simp only [Option.some.injEq] at h
              subst h
              exact ⟨[], by simp⟩
    case running t =>
      split at h
      · simp only [Option.some.injEq] at h
        subst h
        exact ⟨[t], rfl⟩
      · simp only [Option.some.injEq] at h
        subst h
        exact ⟨[], by simp⟩
    case relock =>
      split at h
      · simp at h
      · simp only [Option.some.injEq] at h
        subst h
        exact ⟨[], by simp⟩
    all_goals first
      | (simp only [Option.some.injEq] at h
         subst h
         exact ⟨[], by simp⟩)
      | simp at h

theorem step_completed (s s1 : ThreadPool) (a : Action) (h : s.step a = some s1) :
    ∃ done, s1.completed = s.completed ++ done := by
  cases a with
  | enqueue c =>
    simp only [ThreadPool.step] at h
    split at h
    · simp only [Option.some.injEq] at h
      subst h
      refine ⟨[], ?_⟩
      simp only [ThreadPool.enqueue]
      split <;> simp
    · simp at h
  | worker i => exact workerStep_completed s s1 i h
  | shutdown =>
    simp only [ThreadPool.step] at h
    split at h
    · simp only [Option.some.injEq] at h
      subst h
      exact ⟨[], by simp [ThreadPool.shutdown]⟩
    · simp at h

theorem run_completed (schedule : List Action) (s s1 : ThreadPool)
    (h : s.run schedule = some s1) : ∃ done, s1.completed = s.completed ++ done := by
  induction schedule generalizing s with
  | nil =>
    simp only [ThreadPool.run, Option.some.injEq] at h
    subst h
    exact ⟨[], by simp⟩
  | cons a rest ih =>
    simp only [ThreadPool.run] at h
    cases hstep : s.step a with
    | none => simp [hstep] at h
    | some s2 =>
      simp only [hstep] at h
      obtain ⟨d1, h1⟩ := step_completed s s2 a hstep
      obtain ⟨d2, h2⟩ := ih s2 h
      exact ⟨d1 ++ d2, by rw [h2, h1, List.append_assoc]⟩

/-! ## Failure of a task -/

theorem running_step (s : ThreadPool) (i id : Nat) (c : Outcome)
    (hw : s.workers_[i]? = some (Worker.running (Task.packaged id c))) :
    s.workerStep i = some { s with
      futures := s.futures.set id (some c)
      completed := s.completed ++ [Task.packaged id c]
      workers_ := s.workers_.set i (Worker.finished (Task.packaged id c)) } := by
  simp only [ThreadPool.workerStep, hw, Task.call]

theorem finished_step (s : ThreadPool) (i : Nat) (t : Task)
    (hw : s.workers_[i]? = some (Worker.finished t)) :
    s.workerStep i = some { s with
      working_threads_counter_ := s.working_threads_counter_ - 1
      workers_ := s.workers_.set i Worker.relock } := by
  simp only [ThreadPool.workerStep, hw]

theorem relock_step (s : ThreadPool) (i : Nat) (hw : s.workers_[i]? = some Worker.relock)
    (hm : s.queue_mutex_ = none) :
    s.workerStep i = some { s with
      queue_mutex_ := some i
      workers_ := s.workers_.set i Worker.notifying } := by
  simp [ThreadPool.workerStep, hw, hm]

theorem notifying_step (s : ThreadPool) (i : Nat)
    (hw : s.workers_[i]? = some Worker.notifying) :
    s.workerStep i = some { s with
      queue_mutex_ := none
      signals := s.signals ++ (if s.drained then [Signal.producers_notify_all] else [])
      workers_ := s.workers_.set i Worker.waiting } := by
  simp only [ThreadPool.workerStep, hw]

/-- Claim C9: in every reachable state, when a worker is at line 103 with a task
built by `enqueue` whose callable raises `e`, its next step returns from the
call normally (the worker does not crash) and leaves `e` in the shared state
of the future of that task, so `get` re-raises `e`, now and after any further
steps of the program; the step after that decrements the counter; queue, stop flag, mutex, counter and worker states are
then exactly those reached had the callable returned a value instead; unless
the pool has been stopped, `enqueue` on that state accepts a new task; and if
the mutex is free the worker completes the iteration and is back at the wait
of line 93. -/
theorem task_failure_is_captured (threads_count hardware_concurrency : Nat) (s : ThreadPool)
    (hr : Reachable threads_count hardware_concurrency s) (i id : Nat) (e : Err)
    (hw : s.workers_[i]? = some (Worker.running (Task.packaged id (Outcome.failure e)))) :
    ∃ s1 s2, s.workerStep i = some s1 ∧ s1.workerStep i = some s2 ∧
      s1.workers_[i]? = some (Worker.finished (Task.packaged id (Outcome.failure e))) ∧
      s1.future_get id = some (Outcome.failure e) ∧
      s1.tasks_ = s.tasks_ ∧ s1.stop_ = s.stop_ ∧
      s1.working_threads_counter_ = s.working_threads_counter_ ∧
      s2.workers_[i]? = some Worker.relock ∧
      s2.working_threads_counter_ = s.working_threads_counter_ - 1 ∧
      s2.future_get id = some (Outcome.failure e) ∧
      (∀ schedule s5, s2.run schedule = some s5 →
        s5.future_get id = some (Outcome.failure e)) ∧
      Worker.crashed ∉ s2.workers_ ∧
      (∀ v : Int, ∃ r1 r2,
        ThreadPool.workerStep
          { s with
            workers_ := s.workers_.set i (Worker.running (Task.packaged id (Outcome.value v))) }
          i = some r1 ∧
        r1.workerStep i = some r2 ∧
        r2.tasks_ = s2.tasks_ ∧ r2.stop_ = s2.stop_ ∧ r2.queue_mutex_ = s2.queue_mutex_ ∧
        r2.working_threads_counter_ = s2.working_threads_counter_ ∧
        r2.workers_ = s2.workers_) ∧
      (s.stop_ = false → ∀ callable : Outcome,
        (s2.enqueue callable).2 = Submit.future s2.futures.length ∧
        (s2.enqueue callable).1.tasks_
          = s2.tasks_ ++ [Task.packaged s2.futures.length callable]) ∧
      (s.queue_mutex_ = none → ∃ s4,
        s.run [Action.worker i, Action.worker i, Action.worker i, Action.worker i] = some s4 ∧
        s4.workers_[i]? = some Worker.waiting ∧ s4.tasks_ = s.tasks_ ∧ s4.stop_ = s.stop_ ∧
        s4.working_threads_counter_ = s.working_threads_counter_ - 1) := by
  have hinv := reachable_inv _ _ s hr
  have hmem := mem_of_getElem?_some _ _ _ hw
  have hsub := inflight_submitted s hinv _ hmem (Task.packaged id (Outcome.failure e))
    (by simp [Worker.inflight])
  obtain ⟨id1, c1, ht, hid⟩ := submitted_packaged s hinv _ hsub
  simp only [Task.packaged.injEq] at ht
  obtain ⟨hid1, _⟩ := ht
  subst hid1
  obtain ⟨s1, hs1⟩ : ∃ s1 : ThreadPool, s1 = { s with
      futures := s.futures.set id (some (Outcome.failure e))
      completed := s.completed ++ [Task.packaged id (Outcome.failure e)]
      workers_ := s.workers_.set i (Worker.finished (Task.packaged id (Outcome.failure e))) } :=
    ⟨_, rfl⟩
  have e1 : s.workerStep i = some s1 := by
    rw [hs1]
    exact running_step s i id (Outcome.failure e) hw
  have hw1 : s1.workers_[i]? = some (Worker.finished (Task.packaged id (Outcome.failure e))) := by
    rw [hs1]
    exact getElem?_set_same s.workers_ i _ _ hw
  obtain ⟨s2, hs2⟩ : ∃ s2 : ThreadPool, s2 = { s1 with
      working_threads_counter_ := s1.working_threads_counter_ - 1
      workers_ := s1.workers_.set i Worker.relock } := ⟨_, rfl⟩
  have e2 : s1.workerStep i = some s2 := by
    rw [hs2]
    exact finished_step s1 i _ hw1
  have hw2 : s2.workers_[i]? = some Worker.relock := by
    rw [hs2]
    exact getElem?_set_same s1.workers_ i _ _ hw1
  have hfut : (s.futures.set id (some (Outcome.failure e))).getD id none
      = some (Outcome.failure e) := by
    simp [List.getD_eq_getElem?_getD, List.getElem?_set, hid]
  have hinv2 := workerStep_inv _ _ i (workerStep_inv _ _ i hinv e1) e2
  refine ⟨s1, s2, e1, e2, hw1, ?_, ?_, ?_, ?_, hw2, ?_, ?_, ?_, hinv2.sound.1, ?_, ?_, ?_⟩
  · rw [hs1]
    exact hfut
  · rw [hs1]
  · rw [hs1]
  · rw [hs1]
  · rw [hs2, hs1]
  · rw [hs2, hs1]
    exact hfut
  · intro schedule s5 hrun
    obtain ⟨done, hdone⟩ := run_completed schedule s2 s5 hrun
    have hc : Task.packaged id (Outcome.failure e) ∈ s5.completed := by
      rw [hdone, hs2, hs1]
      simp
    have hready := (run_inv schedule s2 s5 hinv2 hrun).ready id _ hc
    simp [ThreadPool.future_get, List.getD_eq_getElem?_getD, hready]
  · intro v
    obtain ⟨p, hp⟩ : ∃ p : ThreadPool, p = { s with
        workers_ := s.workers_.set i (Worker.running (Task.packaged id (Outcome.value v))) } :=
      ⟨_, rfl⟩
    have hwv : p.workers_[i]? = some (Worker.running (Task.packaged id (Outcome.value v))) := by
      rw [hp]
      exact getElem?_set_same s.workers_ i _ _ hw
    obtain ⟨r1, hr1⟩ : ∃ r1 : ThreadPool, r1 = { p with
        futures := p.futures.set id (some (Outcome.value v))
        completed := p.completed ++ [Task.packaged id (Outcome.value v)]
        workers_ := p.workers_.set i (Worker.finished (Task.packaged id (Outcome.value v))) } :=
      ⟨_, rfl⟩
    have f1 : p.workerStep i = some r1 := by
      rw [hr1]
      exact running_step p i id (Outcome.value v) hwv
    have hwv1 : r1.workers_[i]? = some (Worker.finished (Task.packaged id (Outcome.value v))) := by
      rw [hr1]
      exact getElem?_set_same p.workers_ i _ _ hwv
    obtain ⟨r2, hr2⟩ : ∃ r2 : ThreadPool, r2 = { r1 with
        working_threads_counter_ := r1.working_threads_counter_ - 1
        workers_ := r1.workers_.set i Worker.relock } := ⟨_, rfl⟩
    have f2 : r1.workerStep i = some r2 := by
      rw [hr2]
      exact finished_step r1 i _ hwv1
    rw [← hp]
    refine ⟨r1, r2, f1, f2, ?_, ?_, ?_, ?_, ?_⟩
    · rw [hr2, hr1, hp, hs2, hs1]
    · rw [hr2, hr1, hp, hs2, hs1]
    · rw [hr2, hr1, hp, hs2, hs1]
    · rw [hr2, hr1, hp, hs2, hs1]
    · rw [hr2, hr1, hp, hs2, hs1]
      simp [List.set_set]
  · intro hstop callable
    have hstop2 : s2.stop_ = false := by
      rw [hs2, hs1]
      exact hstop
    simp [ThreadPool.enqueue, hstop2]
  · intro hm
    obtain ⟨s3, hs3⟩ : ∃ s3 : ThreadPool, s3 = { s2 with
        queue_mutex_ := some i
        workers_ := s2.workers_.set i Worker.notifying } := ⟨_, rfl⟩
    have hm2 : s2.queue_mutex_ = none := by
      rw [hs2, hs1]
      exact hm
    have e3 : s2.workerStep i = some s3 := by
      rw [hs3]
      exact relock_step s2 i hw2 hm2
    have hw3 : s3.workers_[i]? = some Worker.notifying := by
      rw [hs3]
      exact getElem?_set_same s2.workers_ i _ _ hw2
    obtain ⟨s4, hs4⟩ : ∃ s4 : ThreadPool, s4 = { s3 with
        queue_mutex_ := none
        signals := s3.signals ++ (if s3.drained then [Signal.producers_notify_all] else [])
        workers_ := s3.workers_.set i Worker.waiting } := ⟨_, rfl⟩
    have e4 : s3.workerStep i = some s4 := by
      rw [hs4]
      exact notifying_step s3 i hw3
    have hw4 : s4.workers_[i]? = some Worker.waiting := by
      rw [hs4]
      exact getElem?_set_same s3.workers_ i _ _ hw3
    refine ⟨s4, ?_, hw4, ?_, ?_, ?_⟩
    · simp only [ThreadPool.run, ThreadPool.step, e1, e2, e3, e4]
    · rw [hs4, hs3, hs2, hs1]
    · rw [hs4, hs3, hs2, hs1]
    · rw [hs4, hs3, hs2, hs1]

/-- Claim C9 at the state reached by `schedule_failing`, where the only worker
is about to run a task whose callable raises "boom". -/
theorem task_failure_is_captured_witness :
    Reachable 1 0 state_failing ∧
    state_failing.workers_[0]?
      = some (Worker.running (Task.packaged 0 (Outcome.failure "boom"))) ∧
    ∃ s1 s2, state_failing.workerStep 0 = some s1 ∧ s1.workerStep 0 = some s2 ∧
      s1.workers_[0]? = some (Worker.finished (Task.packaged 0 (Outcome.failure "boom"))) ∧
      s1.future_get 0 = some (Outcome.failure "boom") :=
  ⟨⟨schedule_failing, rfl⟩, rfl,
   match task_failure_is_captured 1 0 state_failing ⟨schedule_failing, rfl⟩ 0 0 "boom" rfl with
   | ⟨s1, s2, h1, h2, h3, h4, _⟩ => ⟨s1, s2, h1, h2, h3, h4⟩⟩

end tp
